import Mathlib

/-!
Verification of the Unicode-character extraction and testing utility
(`extract-test-file.py`).

The script has three parts, modelled here as pure functions:

* `extract_unicode_chars` — scans the style file's text for
  `\DeclareUnicodeCharacter{HHHH}{...}` declarations (a Python
  `re.findall` over the pattern
  `\\DeclareUnicodeCharacter\{([0-9A-F]{4})\}\{.*?\}`) and converts each
  captured 4-hex-digit group with `chr(int(match, 16))`, dropping the
  entry with a printed warning when the conversion raises `ValueError`
  (in CPython, `chr` fails exactly for arguments `≥ 0x110000`).
* `create_test_file` — renders the LaTeX test document for a list of
  entries; the document is modelled as the list of Unicode code points
  written to the file (code points rather than `Char`, because a Python
  string may hold lone surrogates).
* `process_unicode_chars_individually` — the batch driver; it is
  parametrised by the content of the style file and by the result of
  each `os.system` invocation (one integer per loop iteration), and its
  observable effects (files written, console lines, commands issued,
  accumulated successes) are collected in a `BatchState`.

Text read from the UTF-8 input file is a `List Char`; text written out
is a `List Nat` of code points.
-/

set_option maxRecDepth 400000
set_option maxHeartbeats 1000000

namespace ExtractTestFile

/-- One extracted declaration: the 4-hex-digit identifier as matched, and
the code point produced by `chr(int(match, 16))`.  The code point is kept
as a `Nat` because Python accepts surrogate values that Lean's `Char`
cannot represent. -/
structure CharacterEntry where
  hex : List Char
  code : Nat
deriving DecidableEq

/-- The opening brace character. -/
def lbr : Char := '\x7b'

/-- The closing brace character. -/
def rbr : Char := '\x7d'

/-- The character class `[0-9A-F]` of the pattern, stated on code points:
digits are 48–57, `A`–`F` are 65–70. -/
def isHexUpper (c : Char) : Bool :=
  (48 ≤ c.toNat && c.toNat ≤ 57) || (65 ≤ c.toNat && c.toNat ≤ 70)

/-- Value of one uppercase hexadecimal digit: 0–9 for `0`–`9`, 10–15 for
`A`–`F`. -/
def hexDigitVal (c : Char) : Nat := if c.toNat ≤ 57 then c.toNat - 48 else c.toNat - 55

/-- `int(g, 16)` for a string of uppercase hexadecimal digits. -/
def hexToNat (g : List Char) : Nat := g.foldl (fun a c => 16 * a + hexDigitVal c) 0

/-- The literal part `\DeclareUnicodeCharacter{` that opens every match of
the pattern. -/
def keyword : List Char := ("\\DeclareUnicodeCharacter\x7b").toList

/-- Strip the literal `p` from the front of `s`; `none` when `s` does not
start with `p`. -/
def dropLit : List Char → List Char → Option (List Char)
  | [], s => some s
  | _ :: _, [] => none
  | a :: p, b :: s => if a = b then dropLit p s else none

/-- The non-greedy `.*?\}` tail of the pattern: consume characters up to
the first closing brace and return the remainder after it; fail at a
newline (`.` does not match `\n`) or at the end of the text. -/
def scanPayload : List Char → Option (List Char)
  | [] => none
  | c :: r => if c = rbr then some r else if c = '\n' then none else scanPayload r

/-- Match the whole pattern at the head of `s`: the keyword, exactly four
uppercase hex digits, `}{`, then the non-greedy payload.  On success
return the captured group and the remainder of the text after the
match. -/
def matchAt (s : List Char) : Option (List Char × List Char) :=
  match dropLit keyword s with
  | none => none
  | some t =>
    match t with
    | a :: b :: c :: d :: e :: f :: t2 =>
      if isHexUpper a && isHexUpper b && isHexUpper c && isHexUpper d
          && e = rbr && f = lbr then
        match scanPayload t2 with
        | some rest => some ([a, b, c, d], rest)
        | none => none
      else none
    | _ => none

/-- The scan loop of `re.findall`: try the pattern at every position, left
to right; after a match continue at the first position past it.  `fuel`
bounds the recursion; `fuel = s.length` is always enough (each step
consumes at least one character). -/
def findallGo : Nat → List Char → List (List Char)
  | 0, _ => []
  | _ + 1, [] => []
  | fuel + 1, c :: r =>
    match matchAt (c :: r) with
    | some (g, rest) => g :: findallGo fuel rest
    | none => findallGo fuel r

/-- `re.findall(pattern, content)`: the list of captured 4-hex-digit
groups, in match order. -/
def findall (s : List Char) : List (List Char) := findallGo s.length s

/-- Python's `chr`: defined on `0 ≤ n < 0x110000` (surrogates included),
`ValueError` (here `none`) otherwise. -/
def pyChr (n : Nat) : Option Nat := if n < 1114112 then some n else none

/-- The warning printed when the conversion of a captured group fails. -/
def warnText (g : List Char) : List Char :=
  ("Warning: Could not convert ").toList ++ g ++ (" to a Unicode character").toList

/-- The conversion loop over the captured groups: each group whose value
`chr` accepts becomes an entry; each group it rejects produces a warning
line instead.  Returns (entries, warnings), both in scan order. -/
def extractGo : List (List Char) → List CharacterEntry × List (List Char)
  | [] => ([], [])
  | g :: gs =>
    let r := extractGo gs
    match pyChr (hexToNat g) with
    | some c => (⟨g, c⟩ :: r.1, r.2)
    | none => (r.1, warnText g :: r.2)

/-- `extract_unicode_chars(filename)`, parametrised by the file's decoded
content: the list of (hex identifier, code point) entries. -/
def extract_unicode_chars (content : List Char) : List CharacterEntry :=
  (extractGo (findall content)).1

/-- The warnings printed by `extract_unicode_chars` on the same content. -/
def extractWarnings (content : List Char) : List (List Char) :=
  (extractGo (findall content)).2

/-- Code points of a string literal (all below 0xD800 in this file). -/
def lit (s : String) : List Nat := s.toList.map Char.toNat

/-- Decimal digits of `n`, most significant first, as code points; fuelled
version of Python's `str` on a nonnegative `int`. -/
def natDecGo : Nat → Nat → List Nat
  | 0, _ => []
  | fuel + 1, n => if n < 10 then [48 + n] else natDecGo fuel (n / 10) ++ [48 + n % 10]

/-- Decimal rendering of `n` (`fuel = n + 1` always suffices, since the
recursion divides by 10). -/
def natDec (n : Nat) : List Nat := natDecGo (n + 1) n

/-- The character field of a table row: `\%` for a percent sign, the
character itself otherwise (ampersand entries never reach this point). -/
def charField (e : CharacterEntry) : List Nat :=
  if e.code = 37 then [92, 37] else [e.code]

/-- One table row, `U+{hex} & {char} \\` with a trailing newline. -/
def rowFor (e : CharacterEntry) : List Nat :=
  lit "U+" ++ e.hex.map Char.toNat ++ lit " & " ++ charField e ++ lit " \\\\\n"

/-- The row loop of `create_test_file`: skip ampersand entries, escape
percent, emit one row per remaining entry in input order. -/
def rows : List CharacterEntry → List (List Nat)
  | [] => []
  | e :: es => if e.code = 38 then rows es else rowFor e :: rows es

/-- The fixed document preamble and heading, up to and including the blank
line after the section heading (ten newlines in total). -/
def preamble : List Nat :=
  lit "\\documentclass\x7barticle\x7d\n" ++
  lit "\\usepackage[utf8]\x7binputenc\x7d\n" ++
  lit "\\usepackage\x7bDeclareUnicodeCharacter\x7d\n\n" ++
  lit "\\usepackage\x7blongtable\x7d\n\n" ++
  lit "\\begin\x7bdocument\x7d\n\n" ++
  lit "\\section*\x7bUnicode Characters Test\x7d\n\n"

/-- The summary line (and its trailing blank line): the entry count
followed by the fixed sentence. -/
def summaryText (n : Nat) : List Nat :=
  natDec n ++ lit " characters supported, no more LaTeX Error: Unicode character ... not set up for use with LaTeX.\n\n"

/-- Table opening and header row. -/
def tableHead : List Nat :=
  lit "\\begin\x7blongtable\x7d\x7bll\x7d\n" ++ lit "Hex Code & Character \\\\\n\\hline\n"

/-- Table and document closing. -/
def closing : List Nat :=
  lit "\\end\x7blongtable\x7d\n\n" ++ lit "\\end\x7bdocument\x7d\n"

/-- `create_test_file(chars, output_filename)`: the full sequence of code
points written to the output file. -/
def create_test_file (chars : List CharacterEntry) : List Nat :=
  preamble ++ summaryText chars.length ++ tableHead ++ (rows chars).flatten ++ closing

/-- Split a written document at newline code points (10). -/
def splitNl : List Nat → List (List Nat)
  | [] => [[]]
  | c :: r =>
    let s := splitNl r
    if c = 10 then [] :: s else (c :: s.headI) :: s.tail

/-- The code-point class of a decimal digit. -/
def isDigitCode (n : Nat) : Bool := 48 ≤ n && n ≤ 57

/-- The digit run that opens the summary line of a generated document:
the document's text after the fixed preamble starts with the stated
count, so these are the digits the summary line states. -/
def statedDigits (d : List Nat) : List Nat :=
  (d.drop preamble.length).takeWhile isDigitCode

/-- Number of table rows of a generated document: the lines that start
with `U+` (no other line of a generated document does). -/
def countULines (d : List Nat) : Nat :=
  (splitNl d).countP (fun l => decide (l.take 2 = lit "U+"))

/-- The fixed output directory of the batch tester. -/
def testResultsDir : List Char := ("test_results").toList

/-- The per-character output file, `test_results/test-char-{hex}.tex`. -/
def perCharPath (e : CharacterEntry) : List Char :=
  testResultsDir ++ ("/test-char-").toList ++ e.hex ++ (".tex").toList

/-- The fixed consolidated output path, `successful-chars.tex`. -/
def finalPath : List Char := ("successful-chars.tex").toList

/-- The shell command passed to `os.system` for one test document. -/
def cmdFor (p : List Char) : List Char :=
  ("pdflatex -interaction=nonstopmode -output-directory=test_results ").toList ++ p

/-- The per-entry console line: success or failure, with the hex
identifier and the literal character. -/
def statusLine (e : CharacterEntry) (ok : Bool) : List Nat :=
  lit "Character U+" ++ e.hex.map Char.toNat ++ lit " (" ++ [e.code] ++
    (if ok then lit ") compiled successfully" else lit ") failed to compile")

/-- The summary printed after the consolidated file is written. -/
def summaryLine (n : Nat) : List Nat :=
  lit "Created successful-chars.tex with " ++ natDec n ++ lit " successfully compiled characters"

/-- Observable effects of one batch run: files written (path, content) in
order, console lines in order, shell commands issued in order, and the
accumulated list of successful entries. -/
structure BatchState where
  files : List (List Char × List Nat)
  console : List (List Nat)
  invoked : List (List Char)
  successes : List CharacterEntry
deriving DecidableEq

/-- The per-entry loop of `process_unicode_chars_individually`, starting
at loop index `i`: write the singleton test document, run the compiler
(`status i` is what `os.system` returns for iteration `i`), record the
console line, and keep the entry exactly when the status is zero. -/
def testLoop (status : Nat → Int) : Nat → List CharacterEntry → BatchState
  | _, [] => ⟨[], [], [], []⟩
  | i, e :: es =>
    let r := testLoop status (i + 1) es
    ⟨(perCharPath e, create_test_file [e]) :: r.files,
     statusLine e (status i == 0) :: r.console,
     cmdFor (perCharPath e) :: r.invoked,
     if status i = 0 then e :: r.successes else r.successes⟩

/-- `process_unicode_chars_individually()`, parametrised by the style
file's content and by the compiler statuses: run the loop over all
extracted entries, then, when at least one entry succeeded, write the
consolidated document and print the summary.  The Python function's
return value is the `successes` field. -/
def process_unicode_chars_individually (status : Nat → Int) (content : List Char) :
    BatchState :=
  let chars := extract_unicode_chars content
  let st := testLoop status 0 chars
  if st.successes = [] then st
  else
    ⟨st.files ++ [(finalPath, create_test_file st.successes)],
     st.console ++ [summaryLine st.successes.length],
     st.invoked, st.successes⟩

/-- A style file declaring the surrogate code point D800. -/
def inputD800 : List Char := ("\\DeclareUnicodeCharacter\x7bD800\x7d\x7bsurrogate\x7d").toList

/-- A style file declaring U+0041 (A) and U+0042 (B). -/
def inputAB : List Char :=
  ("\\DeclareUnicodeCharacter\x7b0041\x7d\x7bA\x7d\n\\DeclareUnicodeCharacter\x7b0042\x7d\x7bB\x7d\n").toList

/-- A compiler that succeeds on the first invocation and fails on every
later one. -/
def statusFirstOnly : Nat → Int := fun i => if i = 0 then 0 else 1

/-- The ampersand entry, U+0026. -/
def ampEntry : CharacterEntry := ⟨['0', '0', '2', '6'], 38⟩

/-- The percent entry, U+0025. -/
def pctEntry : CharacterEntry := ⟨['0', '0', '2', '5'], 37⟩

/-- The letter-A entry, U+0041. -/
def aEntry : CharacterEntry := ⟨['0', '0', '4', '1'], 65⟩

/-- The letter-B entry, U+0042. -/
def bEntry : CharacterEntry := ⟨['0', '0', '4', '2'], 66⟩

/-! ### Lemmas about the extractor -/

theorem dropLit_length : ∀ (p s t : List Char), dropLit p s = some t →
    s.length = p.length + t.length
  | [], s, t, h => by
    simp only [dropLit, Option.some.injEq] at h
    simp [h]
  | _ :: _, [], _, h => by simp [dropLit] at h
  | a :: p, b :: s, t, h => by
    simp only [dropLit] at h
    split at h
    · have := dropLit_length p s t h
      simp only [List.length_cons, this]
      omega
    · cases h

theorem scanPayload_length : ∀ (s r : List Char), scanPayload s = some r →
    r.length < s.length
  | [], _, h => by simp [scanPayload] at h
  | c :: s, r, h => by
    simp only [scanPayload] at h
    split at h
    · cases h; simp
    · split at h
      · cases h
      · have := scanPayload_length s r h
        simp only [List.length_cons]
        omega

theorem matchAt_some {s g rest : List Char} (h : matchAt s = some (g, rest)) :
    (g.length = 4 ∧ ∀ c ∈ g, isHexUpper c = true) ∧ rest.length < s.length := by
  unfold matchAt at h
  cases hd : dropLit keyword s with
  | none => rw [hd] at h; cases h
  | some t =>
    rw [hd] at h
    have hlen := dropLit_length keyword s t hd
    match t, h, hlen with
    | [], h, _ => cases h
    | [_], h, _ => cases h
    | [_, _], h, _ => cases h
    | [_, _, _], h, _ => cases h
    | [_, _, _, _], h, _ => cases h
    | [_, _, _, _, _], h, _ => cases h
    | a :: b :: c :: d :: e :: f :: t2, h, hlen =>
      simp only at h
      split at h
      · rename_i hguard
        cases hp : scanPayload t2 with
        | none => rw [hp] at h; cases h
        | some r =>
          rw [hp] at h
          simp only [Option.some.injEq, Prod.mk.injEq] at h
          obtain ⟨hg, hrest⟩ := h
          subst hg hrest
          simp only [Bool.and_eq_true] at hguard
          refine ⟨⟨rfl, ?_⟩, ?_⟩
          · intro x hx
            simp only [List.mem_cons, List.not_mem_nil, or_false] at hx
            rcases hx with rfl | rfl | rfl | rfl
            · exact hguard.1.1.1.1.1
            · exact hguard.1.1.1.1.2
            · exact hguard.1.1.1.2
            · exact hguard.1.1.2
          · have hr := scanPayload_length t2 r hp
            rw [hlen]
            simp only [List.length_cons]
            omega
      · cases h

theorem findallGo_groups : ∀ (fuel : Nat) (s g : List Char),
    g ∈ findallGo fuel s → g.length = 4 ∧ ∀ c ∈ g, isHexUpper c = true := by
  intro fuel
  induction fuel with
  | zero => intro s g h; simp [findallGo] at h
  | succ n ih =>
    intro s g h
    cases s with
    | nil => simp [findallGo] at h
    | cons c r =>
      simp only [findallGo] at h
      cases hm : matchAt (c :: r) with
      | none => rw [hm] at h; exact ih r g h
      | some p =>
        obtain ⟨g0, rest⟩ := p
        rw [hm] at h
        rcases List.mem_cons.mp h with rfl | h2
        · exact (matchAt_some hm).1
        · exact ih rest g h2

theorem findall_groups {s g : List Char} (h : g ∈ findall s) :
    g.length = 4 ∧ ∀ c ∈ g, isHexUpper c = true :=
  findallGo_groups s.length s g h

/-- The fuel `s.length` used by `findall` is not a semantic bound: any
fuel at least `s.length` produces the same match list, so the model
agrees with the unbounded scan of `re.findall`. -/
theorem findallGo_fuel : ∀ (f : Nat) (s : List Char) (g : Nat),
    s.length ≤ f → s.length ≤ g → findallGo f s = findallGo g s := by
  intro f
  induction f with
  | zero =>
    intro s g h1 _
    have hs : s = [] := List.length_eq_zero.mp (Nat.le_zero.mp h1)
    subst hs
    cases g <;> simp [findallGo]
  | succ n ih =>
    intro s g h1 h2
    cases s with
    | nil => cases g <;> simp [findallGo]
    | cons c r =>
      cases g with
      | zero => simp at h2
      | succ m =>
        simp only [findallGo]
        cases hm : matchAt (c :: r) with
        | none =>
          simp only [List.length_cons] at h1 h2
          exact ih r m (by omega) (by omega)
        | some p =>
          obtain ⟨g0, rest⟩ := p
          have hl := (matchAt_some hm).2
          simp only [List.length_cons] at h1 h2 hl
          show g0 :: findallGo n rest = g0 :: findallGo m rest
          rw [ih rest m (by omega) (by omega)]

theorem hexDigitVal_lt {c : Char} (h : isHexUpper c = true) : hexDigitVal c < 16 := by
  unfold isHexUpper at h
  unfold hexDigitVal
  simp only [Bool.or_eq_true, Bool.and_eq_true, decide_eq_true_eq] at h
  split <;> omega

theorem hexToNat_lt {g : List Char} (h4 : g.length = 4)
    (hhex : ∀ c ∈ g, isHexUpper c = true) : hexToNat g < 65536 := by
  match g, h4 with
  | [a, b, c, d], _ =>
    have ha := hexDigitVal_lt (hhex a (by simp))
    have hb := hexDigitVal_lt (hhex b (by simp))
    have hc := hexDigitVal_lt (hhex c (by simp))
    have hd := hexDigitVal_lt (hhex d (by simp))
    simp only [hexToNat, List.foldl_cons, List.foldl_nil]
    omega

theorem extractGo_eq : ∀ (gs : List (List Char)), (∀ g ∈ gs, hexToNat g < 1114112) →
    extractGo gs = (gs.map fun g => (⟨g, hexToNat g⟩ : CharacterEntry), []) := by
  intro gs
  induction gs with
  | nil => intro _; rfl
  | cons g gs ih =>
    intro h
    have hg : hexToNat g < 1114112 := h g (by simp)
    have hrest := ih fun x hx => h x (List.mem_cons_of_mem g hx)
    simp only [extractGo, hrest, pyChr, if_pos hg, List.map_cons]

/-- Every captured group converts: 4 uppercase hex digits are below
`0x10000`, far below `chr`'s bound, so the extractor maps every match to
an entry and prints no warning. -/
theorem extractGo_findall (content : List Char) :
    extractGo (findall content) =
      ((findall content).map fun g => (⟨g, hexToNat g⟩ : CharacterEntry), []) := by
  apply extractGo_eq
  intro g hg
  have ⟨h4, hhex⟩ := findall_groups hg
  have := hexToNat_lt h4 hhex
  omega

theorem extract_eq_map (content : List Char) :
    extract_unicode_chars content =
      (findall content).map fun g => (⟨g, hexToNat g⟩ : CharacterEntry) := by
  unfold extract_unicode_chars
  rw [extractGo_findall]

theorem extractWarnings_eq_nil (content : List Char) : extractWarnings content = [] := by
  unfold extractWarnings
  rw [extractGo_findall]

/-! ### Lemmas about the document generator -/

theorem rows_eq_map_filter : ∀ (chars : List CharacterEntry),
    rows chars = (chars.filter fun e => !(e.code == 38)).map rowFor := by
  intro chars
  induction chars with
  | nil => rfl
  | cons e es ih =>
    by_cases h : e.code = 38
    · simp [rows, h, List.filter_cons, ih]
    · simp [rows, h, List.filter_cons, ih]

theorem rows_length : ∀ (chars : List CharacterEntry),
    (rows chars).length = chars.length - chars.countP (fun e => e.code == 38) := by
  intro chars
  induction chars with
  | nil => rfl
  | cons e es ih =>
    have hle := List.countP_le_length (p := fun x : CharacterEntry => x.code == 38) (l := es)
    by_cases h : e.code = 38
    · simp [rows, h, List.countP_cons, ih]
    · simp [rows, h, List.countP_cons, ih]
      omega

theorem rowFor_mem_rows {chars : List CharacterEntry} {e : CharacterEntry}
    (hmem : e ∈ chars) (hamp : ¬ e.code = 38) : rowFor e ∈ rows chars := by
  rw [rows_eq_map_filter]
  exact List.mem_map_of_mem rowFor (List.mem_filter.mpr ⟨hmem, by simp [hamp]⟩)

theorem rows_shape {chars : List CharacterEntry} {r : List Nat} (h : r ∈ rows chars) :
    ∃ e, ¬ e.code = 38 ∧ r = rowFor e ∧ charField e ≠ [38] := by
  rw [rows_eq_map_filter] at h
  obtain ⟨e, he, rfl⟩ := List.mem_map.mp h
  have hne : ¬ e.code = 38 := by
    have := (List.mem_filter.mp he).2
    simpa using this
  refine ⟨e, hne, rfl, ?_⟩
  unfold charField
  split
  · simp
  · simp [hne]

theorem takeWhile_append_stop {p : Nat → Bool} : ∀ (l : List Nat) (x : Nat) (r : List Nat),
    (∀ c ∈ l, p c = true) → p x = false → (l ++ x :: r).takeWhile p = l := by
  intro l
  induction l with
  | nil => intro x r _ hx; simp [List.takeWhile_cons, hx]
  | cons c l ih =>
    intro x r hl hx
    have hc : p c = true := hl c (by simp)
    simp only [List.cons_append, List.takeWhile_cons, hc, if_true]
    rw [ih x r (fun d hd => hl d (List.mem_cons_of_mem c hd)) hx]

theorem natDecGo_digits : ∀ (fuel n c : Nat), c ∈ natDecGo fuel n → isDigitCode c = true := by
  intro fuel
  induction fuel with
  | zero => intro n c h; simp [natDecGo] at h
  | succ f ih =>
    intro n c h
    simp only [natDecGo] at h
    split at h
    · rename_i hn
      simp only [List.mem_singleton] at h
      subst h
      simp only [isDigitCode, Bool.and_eq_true, decide_eq_true_eq]
      omega
    · rcases List.mem_append.mp h with h1 | h1
      · exact ih (n / 10) c h1
      · simp only [List.mem_singleton] at h1
        subst h1
        have : n % 10 < 10 := Nat.mod_lt n (by omega)
        simp only [isDigitCode, Bool.and_eq_true, decide_eq_true_eq]
        omega

theorem natDec_digits {n c : Nat} (h : c ∈ natDec n) : isDigitCode c = true :=
  natDecGo_digits (n + 1) n c h

/-- The digit run at the start of the summary line of any generated
document is exactly the decimal rendering of the input entry count. -/
theorem statedDigits_create (chars : List CharacterEntry) :
    statedDigits (create_test_file chars) = natDec chars.length := by
  unfold statedDigits create_test_file
  rw [List.append_assoc, List.append_assoc, List.append_assoc, List.drop_left]
  have hsum : summaryText chars.length ++ (tableHead ++ ((rows chars).flatten ++ closing)) =
      natDec chars.length ++ (32 ::
        (lit "characters supported, no more LaTeX Error: Unicode character ... not set up for use with LaTeX.\n\n" ++
          (tableHead ++ ((rows chars).flatten ++ closing)))) := by
    unfold summaryText
    rw [List.append_assoc]
    congr 1
  rw [hsum]
  rw [takeWhile_append_stop _ 32 _ (fun c hc => natDec_digits hc) (by decide)]

/-! ### Lemmas about the batch tester loop -/

theorem testLoop_files (status : Nat → Int) : ∀ (i : Nat) (chars : List CharacterEntry),
    (testLoop status i chars).files =
      chars.map (fun e => (perCharPath e, create_test_file [e])) := by
  intro i chars
  induction chars generalizing i with
  | nil => rfl
  | cons e es ih => simp [testLoop, ih]

theorem testLoop_invoked (status : Nat → Int) : ∀ (i : Nat) (chars : List CharacterEntry),
    (testLoop status i chars).invoked = chars.map (fun e => cmdFor (perCharPath e)) := by
  intro i chars
  induction chars generalizing i with
  | nil => rfl
  | cons e es ih => simp [testLoop, ih]

theorem testLoop_console (status : Nat → Int) : ∀ (i : Nat) (chars : List CharacterEntry),
    (testLoop status i chars).console =
      (List.enumFrom i chars).map (fun p => statusLine p.2 (status p.1 == 0)) := by
  intro i chars
  induction chars generalizing i with
  | nil => rfl
  | cons e es ih => simp [testLoop, ih, List.enumFrom]

theorem testLoop_successes (status : Nat → Int) : ∀ (i : Nat) (chars : List CharacterEntry),
    (testLoop status i chars).successes =
      ((List.enumFrom i chars).filter (fun p => decide (status p.1 = 0))).map Prod.snd := by
  intro i chars
  induction chars generalizing i with
  | nil => rfl
  | cons e es ih =>
    by_cases h : status i = 0
    · simp [testLoop, ih, List.enumFrom, List.filter_cons, h]
    · simp [testLoop, ih, List.enumFrom, List.filter_cons, h]

theorem testLoop_sublist (status : Nat → Int) : ∀ (i : Nat) (chars : List CharacterEntry),
    (testLoop status i chars).successes.Sublist chars := by
  intro i chars
  induction chars generalizing i with
  | nil => exact List.Sublist.refl []
  | cons e es ih =>
    show (if status i = 0 then e :: (testLoop status (i + 1) es).successes
      else (testLoop status (i + 1) es).successes).Sublist (e :: es)
    split
    · exact List.Sublist.cons₂ e (ih (i + 1))
    · exact List.Sublist.cons e (ih (i + 1))

theorem perCharPath_ne_final (e : CharacterEntry) : perCharPath e ≠ finalPath := by
  intro h
  have h0 := congrArg List.headI h
  have e1 : (perCharPath e).headI = 't' := rfl
  have e2 : finalPath.headI = 's' := rfl
  rw [e1, e2] at h0
  cases h0

theorem final_not_mem_testLoop (status : Nat → Int) (i : Nat)
    (chars : List CharacterEntry) (c : List Nat) :
    (finalPath, c) ∉ (testLoop status i chars).files := by
  rw [testLoop_files]
  intro h
  obtain ⟨e, _, he⟩ := List.mem_map.mp h
  exact perCharPath_ne_final e (by
    have := congrArg Prod.fst he
    simpa using this)

theorem process_eq_of_nil {status : Nat → Int} {content : List Char}
    (h : (testLoop status 0 (extract_unicode_chars content)).successes = []) :
    process_unicode_chars_individually status content =
      testLoop status 0 (extract_unicode_chars content) := by
  simp only [process_unicode_chars_individually]
  rw [if_pos h]

theorem process_eq_of_ne_nil {status : Nat → Int} {content : List Char}
    (h : ¬ (testLoop status 0 (extract_unicode_chars content)).successes = []) :
    process_unicode_chars_individually status content =
      ⟨(testLoop status 0 (extract_unicode_chars content)).files ++
          [(finalPath, create_test_file
            (testLoop status 0 (extract_unicode_chars content)).successes)],
        (testLoop status 0 (extract_unicode_chars content)).console ++
          [summaryLine (testLoop status 0 (extract_unicode_chars content)).successes.length],
        (testLoop status 0 (extract_unicode_chars content)).invoked,
        (testLoop status 0 (extract_unicode_chars content)).successes⟩ := by
  simp only [process_unicode_chars_individually]
  rw [if_neg h]

theorem process_successes (status : Nat → Int) (content : List Char) :
    (process_unicode_chars_individually status content).successes =
      (testLoop status 0 (extract_unicode_chars content)).successes := by
  by_cases h : (testLoop status 0 (extract_unicode_chars content)).successes = []
  · rw [process_eq_of_nil h]
  · rw [process_eq_of_ne_nil h]

theorem process_invoked (status : Nat → Int) (content : List Char) :
    (process_unicode_chars_individually status content).invoked =
      (testLoop status 0 (extract_unicode_chars content)).invoked := by
  by_cases h : (testLoop status 0 (extract_unicode_chars content)).successes = []
  · rw [process_eq_of_nil h]
  · rw [process_eq_of_ne_nil h]

/-! ### Claim C3 -/

/-- C3: for every declaration of the input matching the pattern, the
extractor returns an entry whose hex identifier equals the captured
4-digit group and whose character is the group decoded as hexadecimal;
conversely, every returned entry arises from a match this way. -/
theorem claim_C3_extracted_entries (content : List Char) :
    (∀ g ∈ findall content,
      (⟨g, hexToNat g⟩ : CharacterEntry) ∈ extract_unicode_chars content) ∧
    (∀ e ∈ extract_unicode_chars content,
      e.code = hexToNat e.hex ∧ e.hex ∈ findall content) := by
  constructor
  · intro g hg
    rw [extract_eq_map]
    exact List.mem_map_of_mem _ hg
  · intro e he
    rw [extract_eq_map] at he
    obtain ⟨g, hg, rfl⟩ := List.mem_map.mp he
    exact ⟨rfl, hg⟩

/-- Witness for C3 on a concrete input file with two declarations. -/
theorem claim_C3_witness :
    (⟨['0', '0', '4', '1'], hexToNat ['0', '0', '4', '1']⟩ : CharacterEntry) ∈
      extract_unicode_chars inputAB :=
  (claim_C3_extracted_entries inputAB).1 ['0', '0', '4', '1'] (by decide)

/-! ### Claim C9 -/

/-- C9: the extracted list keeps the first-seen order of the matches and
performs no deduplication — mapping each entry to its hex identifier
gives back exactly the match list, and a group matched `n` times yields
`n` entries. -/
theorem claim_C9_order_multiplicity (content : List Char) :
    (extract_unicode_chars content).map CharacterEntry.hex = findall content ∧
    ∀ g : List Char,
      (extract_unicode_chars content).countP (fun e => e.hex == g) =
        (findall content).count g := by
  have h := extract_eq_map content
  constructor
  · rw [h, List.map_map]
    have hcomp : CharacterEntry.hex ∘ (fun g => (⟨g, hexToNat g⟩ : CharacterEntry)) = id := rfl
    rw [hcomp, List.map_id]
  · intro g
    rw [h, List.countP_map]
    rfl

/-! ### Claim C1 (corrected) -/

/-- C1 as stated is false: a declaration whose identifier decodes to the
surrogate value D800 is returned by the extractor (Python's `chr`
accepts every value below 0x110000) and no diagnostic is emitted. -/
theorem claim_C1_counterexample :
    extract_unicode_chars inputD800 = [⟨['D', '8', '0', '0'], 55296⟩] ∧
    extractWarnings inputD800 = [] := by decide

/-- C1 (amended): a 4-uppercase-hex-digit identifier always decodes to a
value the conversion accepts (everything below 0x10000, surrogates
included), so no entry is ever excluded, the diagnostic list is empty on
every input, and entries with surrogate values are returned like any
other. -/
theorem claim_C1_no_decode_failure (content : List Char) :
    extractWarnings content = [] ∧
    ∀ g ∈ findall content, 55296 ≤ hexToNat g →
      (⟨g, hexToNat g⟩ : CharacterEntry) ∈ extract_unicode_chars content := by
  refine ⟨extractWarnings_eq_nil content, ?_⟩
  intro g hg _
  rw [extract_eq_map]
  exact List.mem_map_of_mem _ hg

/-- Witness for the amended C1 on the concrete D800 input. -/
theorem claim_C1_witness :
    extractWarnings inputD800 = [] ∧
    (⟨['D', '8', '0', '0'], hexToNat ['D', '8', '0', '0']⟩ : CharacterEntry) ∈
      extract_unicode_chars inputD800 :=
  ⟨(claim_C1_no_decode_failure inputD800).1,
   (claim_C1_no_decode_failure inputD800).2 ['D', '8', '0', '0'] (by decide) (by decide)⟩

/-! ### Claim C4 -/

/-- C4: the generator emits no table row whose character field is a
literal ampersand, and the number of emitted rows is the number of input
entries minus the number of ampersand entries. -/
theorem claim_C4_ampersand_skipped (chars : List CharacterEntry) :
    (rows chars).length = chars.length - chars.countP (fun e => e.code == 38) ∧
    ∀ r ∈ rows chars, ∃ e, ¬ e.code = 38 ∧ r = rowFor e ∧ charField e ≠ [38] :=
  ⟨rows_length chars, fun _ hr => rows_shape hr⟩

/-- Witness for C4 on a two-entry list containing the ampersand entry. -/
theorem claim_C4_witness :
    (rows [aEntry, ampEntry]).length =
      [aEntry, ampEntry].length - [aEntry, ampEntry].countP (fun e => e.code == 38) ∧
    ∃ e, ¬ e.code = 38 ∧ rowFor aEntry = rowFor e ∧ charField e ≠ [38] :=
  ⟨(claim_C4_ampersand_skipped [aEntry, ampEntry]).1,
   (claim_C4_ampersand_skipped [aEntry, ampEntry]).2 (rowFor aEntry) (by decide)⟩

/-! ### Claim C5 -/

/-- C5: a percent entry is written with a preceding backslash before the
percent sign, and any entry that is neither percent nor ampersand is
written verbatim, with no other escaping. -/
theorem claim_C5_percent_escaped (chars : List CharacterEntry) (e : CharacterEntry)
    (hmem : e ∈ chars) (hamp : ¬ e.code = 38) :
    rowFor e ∈ rows chars ∧
    (e.code = 37 →
      rowFor e = lit "U+" ++ e.hex.map Char.toNat ++ lit " & " ++ [92, 37] ++
        lit " \\\\\n") ∧
    (¬ e.code = 37 →
      rowFor e = lit "U+" ++ e.hex.map Char.toNat ++ lit " & " ++ [e.code] ++
        lit " \\\\\n") := by
  refine ⟨rowFor_mem_rows hmem hamp, ?_, ?_⟩
  · intro h
    simp [rowFor, charField, h]
  · intro h
    simp [rowFor, charField, h]

/-- Witness for C5 on the singleton percent-entry list. -/
theorem claim_C5_witness :
    rowFor pctEntry ∈ rows [pctEntry] ∧
    (pctEntry.code = 37 →
      rowFor pctEntry = lit "U+" ++ pctEntry.hex.map Char.toNat ++ lit " & " ++ [92, 37] ++
        lit " \\\\\n") ∧
    (¬ pctEntry.code = 37 →
      rowFor pctEntry = lit "U+" ++ pctEntry.hex.map Char.toNat ++ lit " & " ++
        [pctEntry.code] ++ lit " \\\\\n") :=
  claim_C5_percent_escaped [pctEntry] pctEntry (by decide) (by decide)

/-! ### Claim C8 (corrected) -/

/-- C8 as stated is false: on the singleton ampersand-entry list the
generated document's summary line states `1` while zero table rows are
emitted, so the stated number is not the emitted row count. -/
theorem claim_C8_counterexample :
    statedDigits (create_test_file [ampEntry]) = [49] ∧
    countULines (create_test_file [ampEntry]) = 0 ∧
    natDec (countULines (create_test_file [ampEntry])) ≠ [49] := by decide

/-- C8 (amended): the summary line states the number of input entries
(ampersand entries included), which equals the number of emitted rows
plus the number of entries skipped by the ampersand rule. -/
theorem claim_C8_summary_states_input_count (chars : List CharacterEntry) :
    statedDigits (create_test_file chars) = natDec chars.length ∧
    (rows chars).length + chars.countP (fun e => e.code == 38) = chars.length := by
  refine ⟨statedDigits_create chars, ?_⟩
  have h := rows_length chars
  have hle := List.countP_le_length (p := fun x : CharacterEntry => x.code == 38) (l := chars)
  omega

/-! ### Claim C10 -/

/-- C10: on the empty entry list the generator still writes the complete
document — preamble, heading, a summary line stating 0 characters, the
table header, zero data rows, and both closings. -/
theorem claim_C10_empty_entry_list :
    create_test_file [] =
      lit "\\documentclass\x7barticle\x7d\n\\usepackage[utf8]\x7binputenc\x7d\n\\usepackage\x7bDeclareUnicodeCharacter\x7d\n\n\\usepackage\x7blongtable\x7d\n\n\\begin\x7bdocument\x7d\n\n\\section*\x7bUnicode Characters Test\x7d\n\n0 characters supported, no more LaTeX Error: Unicode character ... not set up for use with LaTeX.\n\n\\begin\x7blongtable\x7d\x7bll\x7d\nHex Code & Character \\\\\n\\hline\n\\end\x7blongtable\x7d\n\n\\end\x7bdocument\x7d\n" ∧
    statedDigits (create_test_file []) = natDec 0 ∧
    countULines (create_test_file []) = 0 := by decide

/-! ### Claim C2 (corrected) -/

/-- C2 as stated is false: with two extracted entries of which the second
fails to compile, the returned list has a single element — the failed
entry has no record in the return value. -/
theorem claim_C2_counterexample :
    (process_unicode_chars_individually statusFirstOnly inputAB).successes = [aEntry] ∧
    (extract_unicode_chars inputAB).length = 2 ∧
    (process_unicode_chars_individually statusFirstOnly inputAB).successes.length ≠
      (extract_unicode_chars inputAB).length := by decide

/-- C2 (amended): the batch tester returns only the successful entries —
exactly those extracted entries whose compiler invocation returned
status zero, in extraction order; failed entries have no record in the
return value. -/
theorem claim_C2_returns_only_successes (status : Nat → Int) (content : List Char) :
    (process_unicode_chars_individually status content).successes =
      ((List.enumFrom 0 (extract_unicode_chars content)).filter
        (fun p => decide (status p.1 = 0))).map Prod.snd := by
  rw [process_successes, testLoop_successes]

/-! ### Claim C6 -/

/-- C6: the consolidated document is written exactly when at least one
entry succeeded; it then appears in the written files with content
generated from precisely the successful entries, which form a
subsequence of the extracted list (original relative order), and the
summary line reports their count. -/
theorem claim_C6_consolidated_document (status : Nat → Int) (content : List Char) :
    ((process_unicode_chars_individually status content).successes ≠ [] ↔
      ∃ p ∈ List.enumFrom 0 (extract_unicode_chars content), status p.1 = 0) ∧
    ((process_unicode_chars_individually status content).successes = [] →
      ∀ c, (finalPath, c) ∉ (process_unicode_chars_individually status content).files) ∧
    ((process_unicode_chars_individually status content).successes ≠ [] →
      (finalPath,
          create_test_file (process_unicode_chars_individually status content).successes) ∈
        (process_unicode_chars_individually status content).files ∧
      summaryLine (process_unicode_chars_individually status content).successes.length ∈
        (process_unicode_chars_individually status content).console) ∧
    (process_unicode_chars_individually status content).successes.Sublist
      (extract_unicode_chars content) := by
  have hsub := testLoop_sublist status 0 (extract_unicode_chars content)
  have hiff : (testLoop status 0 (extract_unicode_chars content)).successes ≠ [] ↔
      ∃ p ∈ List.enumFrom 0 (extract_unicode_chars content), status p.1 = 0 := by
    rw [testLoop_successes]
    constructor
    · intro h
      obtain ⟨x, hx⟩ := List.exists_mem_of_ne_nil _ h
      obtain ⟨p, hp, rfl⟩ := List.mem_map.mp hx
      have hm := List.mem_filter.mp hp
      exact ⟨p, hm.1, of_decide_eq_true hm.2⟩
    · rintro ⟨p, hp, hp0⟩ h
      have hf := List.map_eq_nil_iff.mp h
      have := List.filter_eq_nil_iff.mp hf p hp
      exact this (decide_eq_true hp0)
  by_cases h0 : (testLoop status 0 (extract_unicode_chars content)).successes = []
  · rw [process_eq_of_nil h0]
    refine ⟨hiff, ?_, ?_, hsub⟩
    · intro _ c
      exact final_not_mem_testLoop status 0 (extract_unicode_chars content) c
    · intro hne
      exact absurd h0 hne
  · rw [process_eq_of_ne_nil h0]
    refine ⟨hiff, ?_, ?_, hsub⟩
    · intro h
      exact absurd h h0
    · intro _
      constructor
      · exact List.mem_append_right _ (by simp)
      · exact List.mem_append_right _ (by simp)

/-- Witness for C6: with the two-entry input and a compiler succeeding
only on the first invocation, the consolidated file and the summary line
are both present in the run's output. -/
theorem claim_C6_witness :
    (finalPath,
        create_test_file
          (process_unicode_chars_individually statusFirstOnly inputAB).successes) ∈
      (process_unicode_chars_individually statusFirstOnly inputAB).files ∧
    summaryLine
        (process_unicode_chars_individually statusFirstOnly inputAB).successes.length ∈
      (process_unicode_chars_individually statusFirstOnly inputAB).console :=
  (claim_C6_consolidated_document statusFirstOnly inputAB).2.2.1 (by decide)

/-! ### Claim C7 -/

/-- C7: the loop invokes the compiler exactly once per extracted entry, in
extraction order; an entry is recorded as a success precisely when its
invocation returned status zero, and each entry's console record depends
only on its own status. -/
theorem claim_C7_one_invocation_per_entry (status : Nat → Int) (content : List Char) :
    (process_unicode_chars_individually status content).invoked =
      (extract_unicode_chars content).map (fun e => cmdFor (perCharPath e)) ∧
    (testLoop status 0 (extract_unicode_chars content)).successes =
      ((List.enumFrom 0 (extract_unicode_chars content)).filter
        (fun p => decide (status p.1 = 0))).map Prod.snd ∧
    (testLoop status 0 (extract_unicode_chars content)).console =
      (List.enumFrom 0 (extract_unicode_chars content)).map
        (fun p => statusLine p.2 (status p.1 == 0)) := by
  refine ⟨?_, testLoop_successes status 0 _, testLoop_console status 0 _⟩
  rw [process_invoked, testLoop_invoked]

end ExtractTestFile
